import Mathlib

/-!
# Calendar event manager: the in-memory event store

A shallow embedding of `src/main.go`.  The package-level `store` (a Go
`map[string]Event`) is passed explicitly: every HTTP handler becomes a function
from the store before the call and the decoded request inputs to the store
after the call and the response written.  The handlers are modelled one call at
a time, i.e. as the critical sections execute under `store.mu`.
-/

namespace CalendarEventManager

/-! ## Data model -/

/-- Instant held by the two time fields (Go `time.Time`): seconds and nanoseconds
since the Unix epoch together with the zone offset in seconds.  No handler
inspects it. -/
structure Time where
  sec : Int
  nsec : Nat
  offset : Int
deriving DecidableEq

/-- Record `Event` of `main.go` (lines 15-22). -/
structure Event where
  ID : String
  Title : String
  Description : String
  StartTime : Time
  EndTime : Time
  Location : String
deriving DecidableEq

/-! ## Go map primitives on the entry list -/

/-- Index expression `m[k]` with the comma-ok form: `some v` when the key is
present, `none` when it is not. -/
def lookupKey (k : String) : List (String × Event) → Option Event
  | [] => none
  | (k1, v1) :: rest => if k1 = k then some v1 else lookupKey k rest

/-- Assignment `m[k] = v`: overwrites the value of an existing key in place,
otherwise adds a new entry. -/
def assignKey (k : String) (v : Event) : List (String × Event) → List (String × Event)
  | [] => [(k, v)]
  | (k1, v1) :: rest => if k1 = k then (k, v) :: rest else (k1, v1) :: assignKey k v rest

/-- Builtin `delete(m, k)`: drops the entry of `k`; nothing happens when the key
is absent. -/
def removeKey (k : String) : List (String × Event) → List (String × Event)
  | [] => []
  | (k1, v1) :: rest => if k1 = k then removeKey k rest else (k1, v1) :: removeKey k rest

theorem keys_assignKey (k : String) (v : Event) (l : List (String × Event)) :
    (assignKey k v l).map Prod.fst
      = if k ∈ l.map Prod.fst then l.map Prod.fst else l.map Prod.fst ++ [k] := by
  induction l with
  | nil => simp [assignKey]
  | cons p rest ih =>
    obtain ⟨k1, v1⟩ := p
    by_cases h : k1 = k
    · simp [assignKey, h]
    · have h2 : ¬ k = k1 := fun e => h e.symm
      by_cases hm : k ∈ rest.map Prod.fst
      · simp only [assignKey, h, if_false, List.map_cons, ih, hm, if_true, List.mem_cons, or_true]
      · simp only [assignKey, h, if_false, List.map_cons, ih, hm, List.mem_cons, h2, or_self,
          List.cons_append]

theorem nodup_assignKey (k : String) (v : Event) (l : List (String × Event))
    (h : (l.map Prod.fst).Nodup) : ((assignKey k v l).map Prod.fst).Nodup := by
  rw [keys_assignKey]
  split
  · exact h
  · rename_i hk
    rw [List.nodup_append]
    refine ⟨h, List.nodup_singleton k, ?_⟩
    intro a ha hb
    simp only [List.mem_singleton] at hb
    subst hb
    exact hk ha

theorem keys_removeKey (k : String) (l : List (String × Event)) :
    (removeKey k l).map Prod.fst = (l.map Prod.fst).filter (fun a => decide (a ≠ k)) := by
  induction l with
  | nil => simp [removeKey]
  | cons p rest ih =>
    obtain ⟨k1, v1⟩ := p
    by_cases h : k1 = k
    · simp [removeKey, h, ih]
    · simp [removeKey, h, ih]

theorem nodup_removeKey (k : String) (l : List (String × Event))
    (h : (l.map Prod.fst).Nodup) : ((removeKey k l).map Prod.fst).Nodup := by
  rw [keys_removeKey]
  exact h.filter _

/-- Go value of type `map[string]Event`: finitely many entries, at most one per
key.  The order of `entries` stands for the iteration order of `range`, which
the language leaves unspecified. -/
structure EventMap where
  entries : List (String × Event)
  nodupKeys : (entries.map Prod.fst).Nodup

instance : DecidableEq EventMap := fun a b =>
  decidable_of_iff (a.entries = b.entries) (by cases a; cases b; simp)

namespace EventMap

/-- Expression `make(map[string]Event)`. -/
def empty : EventMap := ⟨[], List.nodup_nil⟩

/-- Expression `m[k]`, comma-ok form. -/
def get (m : EventMap) (k : String) : Option Event := lookupKey k m.entries

/-- Statement `m[k] = v`. -/
def set (m : EventMap) (k : String) (v : Event) : EventMap :=
  ⟨assignKey k v m.entries, nodup_assignKey k v m.entries m.nodupKeys⟩

/-- Statement `delete(m, k)`. -/
def delete (m : EventMap) (k : String) : EventMap :=
  ⟨removeKey k m.entries, nodup_removeKey k m.entries m.nodupKeys⟩

/-- Expression `len(m)`: the number of keys. -/
def len (m : EventMap) : Nat := m.entries.length

/-- Values met by `for _, event := range m`, in iteration order. -/
def values (m : EventMap) : List Event := m.entries.map Prod.snd

end EventMap

/-- Struct `EventStore` of `main.go` (lines 25-28).  The field `mu` has no
counterpart: one handler call is one step. -/
structure EventStore where
  events : EventMap
deriving DecidableEq

/-- Initial value of the package variable `store` (lines 30-32). -/
def store : EventStore := ⟨EventMap.empty⟩

/-! ## HTTP responses -/

/-- Constant `http.StatusOK`. -/
def StatusOK : Nat := 200
/-- Constant `http.StatusCreated`. -/
def StatusCreated : Nat := 201
/-- Constant `http.StatusNoContent`. -/
def StatusNoContent : Nat := 204
/-- Constant `http.StatusBadRequest`. -/
def StatusBadRequest : Nat := 400
/-- Constant `http.StatusNotFound`. -/
def StatusNotFound : Nat := 404

/-- What a handler writes after the status line.  `errorText msg` is the body
produced by `http.Error(w, msg, code)`; `event` and `events` are the values
handed to `json.NewEncoder(w).Encode` under `Content-Type: application/json`. -/
inductive Body where
  | empty
  | errorText (msg : String)
  | event (e : Event)
  | events (es : List Event)
deriving DecidableEq

/-- Status code and body of the response written by a handler. -/
structure Response where
  status : Nat
  body : Body
deriving DecidableEq

/-- Call `http.Error(w, msg, code)`. -/
def httpError (msg : String) (code : Nat) : Response := ⟨code, Body.errorText msg⟩

/-- Response of the three `http.Error(w, "Event not found", http.StatusNotFound)`
calls. -/
def notFound : Response := httpError "Event not found" StatusNotFound

/-- Call `fmt.Sprintf("%d", n)` on a signed integer: decimal digits, with a
leading minus sign below zero. -/
def sprintfD (n : Int) : String :=
  match n with
  | Int.ofNat m => Nat.repr m
  | Int.negSucc m => "-" ++ Nat.repr (m + 1)

/-! ## Base-10 rendering, as the specification words it

The identifier policy of the specification reads "whole seconds since the Unix
epoch, rendered in base-10".  The definitions below state what a base-10
rendering is without looking at the formatting routine behind `sprintfD`: the
digits come from `Nat.digits 10`, and `decimalValue` reads a digit string back
as a number. -/

/-- Number a decimal digit character stands for (`'0'` has code point 48). -/
def digitValue (c : Char) : Nat := c.toNat - 48

/-- Number denoted by a string of decimal digits, most significant digit
first. -/
def decimalValue (cs : List Char) : Nat :=
  cs.foldl (fun acc c => 10 * acc + digitValue c) 0

/-- Decimal digits of a natural number, most significant first and without a
leading zero; the single digit `0` for zero. -/
def decimalDigits (n : Nat) : List Char :=
  if n = 0 then ['0'] else (Nat.digits 10 n).reverse.map Nat.digitChar

/-- Base-10 rendering of an integer: a minus sign when it is below zero,
followed by the decimal digits of its absolute value. -/
def base10Rendering (t : Int) : String :=
  String.mk ((if t < 0 then ['-'] else []) ++ decimalDigits t.natAbs)

/-! ## Handlers

`decoded` is the outcome of `json.NewDecoder(r.Body).Decode(&event)`, `now` the
value of `time.Now().Unix()`, and `id` is `mux.Vars(r)["id"]`. -/

/-- Handler `CreateEvent` (lines 35-52). -/
def CreateEvent (s : EventStore) (now : Int) (decoded : Except String Event) :
    EventStore × Response :=
  match decoded with
  | Except.error err => (s, httpError err StatusBadRequest)
  | Except.ok event0 =>
    let event : Event := { event0 with ID := sprintfD now }
    (⟨s.events.set event.ID event⟩, ⟨StatusCreated, Body.event event⟩)

/-- Handler `GetAllEvents` (lines 55-66).  No `WriteHeader` call is made, so the
first write sends status 200. -/
def GetAllEvents (s : EventStore) : EventStore × Response :=
  let events : List Event := s.events.values.foldl (fun acc event => acc ++ [event]) []
  (s, ⟨StatusOK, Body.events events⟩)

/-- Handler `GetEvent` (lines 69-84). -/
def GetEvent (s : EventStore) (id : String) : EventStore × Response :=
  match s.events.get id with
  | none => (s, notFound)
  | some event => (s, ⟨StatusOK, Body.event event⟩)

/-- Handler `UpdateEvent` (lines 87-109). -/
def UpdateEvent (s : EventStore) (id : String) (decoded : Except String Event) :
    EventStore × Response :=
  match decoded with
  | Except.error err => (s, httpError err StatusBadRequest)
  | Except.ok event0 =>
    match s.events.get id with
    | none => (s, notFound)
    | some _ =>
      let event : Event := { event0 with ID := id }
      (⟨s.events.set id event⟩, ⟨StatusOK, Body.event event⟩)

/-- Handler `DeleteEvent` (lines 112-126). -/
def DeleteEvent (s : EventStore) (id : String) : EventStore × Response :=
  match s.events.get id with
  | none => (s, notFound)
  | some _ => (⟨s.events.delete id⟩, ⟨StatusNoContent, Body.empty⟩)

/-! ## Request sequences -/

/-- One routed API request (lines 153-157) with the inputs its handler reads. -/
inductive Request where
  | create (now : Int) (decoded : Except String Event)
  | getAll
  | get (id : String)
  | update (id : String) (decoded : Except String Event)
  | delete (id : String)

/-- Dispatch of the router to the handler of the request. -/
def handle (s : EventStore) : Request → EventStore × Response
  | Request.create now decoded => CreateEvent s now decoded
  | Request.getAll => GetAllEvents s
  | Request.get id => GetEvent s id
  | Request.update id decoded => UpdateEvent s id decoded
  | Request.delete id => DeleteEvent s id

/-- Store after serving the requests one after the other. -/
def run (s : EventStore) : List Request → EventStore
  | [] => s
  | r :: rest => run (handle s r).1 rest

/-- States the package variable `store` can take: those produced from the
initial empty store by a finite sequence of requests. -/
def Reachable (s : EventStore) : Prop := ∃ reqs : List Request, run store reqs = s

/-- Invariant 1 of the data model: every entry is stored under its own ID. -/
def KeyIntegrity (s : EventStore) : Prop :=
  ∀ k v, s.events.get k = some v → v.ID = k

/-! ## Facts about the map primitives -/

theorem lookupKey_assignKey_self (k : String) (v : Event) (l : List (String × Event)) :
    lookupKey k (assignKey k v l) = some v := by
  induction l with
  | nil => simp [assignKey, lookupKey]
  | cons p rest ih =>
    obtain ⟨k1, v1⟩ := p
    by_cases h : k1 = k
    · simp [assignKey, lookupKey, h]
    · simp [assignKey, lookupKey, h, ih]

theorem lookupKey_assignKey_other (k k2 : String) (v : Event) (l : List (String × Event))
    (hne : k2 ≠ k) : lookupKey k2 (assignKey k v l) = lookupKey k2 l := by
  induction l with
  | nil => simp [assignKey, lookupKey, Ne.symm hne]
  | cons p rest ih =>
    obtain ⟨k1, v1⟩ := p
    by_cases h : k1 = k
    · have h2 : ¬ k1 = k2 := fun e => hne (e ▸ h)
      simp [assignKey, lookupKey, h, h2, Ne.symm hne]
    · by_cases h3 : k1 = k2
      · subst h3
        simp [assignKey, lookupKey, h]
      · simp [assignKey, lookupKey, h, h3, ih]

theorem lookupKey_removeKey_self (k : String) (l : List (String × Event)) :
    lookupKey k (removeKey k l) = none := by
  induction l with
  | nil => simp [removeKey, lookupKey]
  | cons p rest ih =>
    obtain ⟨k1, v1⟩ := p
    by_cases h : k1 = k
    · simp [removeKey, h, ih]
    · simp [removeKey, lookupKey, h, ih]

theorem lookupKey_removeKey_other (k k2 : String) (l : List (String × Event))
    (hne : k2 ≠ k) : lookupKey k2 (removeKey k l) = lookupKey k2 l := by
  induction l with
  | nil => simp [removeKey, lookupKey]
  | cons p rest ih =>
    obtain ⟨k1, v1⟩ := p
    by_cases h : k1 = k
    · subst h
      simp [removeKey, lookupKey, Ne.symm hne, ih]
    · by_cases h3 : k1 = k2
      · subst h3
        simp [removeKey, lookupKey, h]
      · simp [removeKey, lookupKey, h, h3, ih]

theorem assignKey_assignKey (k : String) (v : Event) (l : List (String × Event)) :
    assignKey k v (assignKey k v l) = assignKey k v l := by
  induction l with
  | nil => simp [assignKey]
  | cons p rest ih =>
    obtain ⟨k1, v1⟩ := p
    by_cases h : k1 = k
    · simp [assignKey, h]
    · simp [assignKey, h, ih]

theorem lookupKey_eq_none_iff (k : String) (l : List (String × Event)) :
    lookupKey k l = none ↔ k ∉ l.map Prod.fst := by
  induction l with
  | nil => simp [lookupKey]
  | cons p rest ih =>
    obtain ⟨k1, v1⟩ := p
    by_cases h : k1 = k
    · simp [lookupKey, h]
    · have h2 : ¬ k = k1 := fun e => h e.symm
      simp [lookupKey, h, h2, ih]

theorem length_assignKey (k : String) (v : Event) (l : List (String × Event)) :
    (assignKey k v l).length = if lookupKey k l = none then l.length + 1 else l.length := by
  induction l with
  | nil => simp [assignKey, lookupKey]
  | cons p rest ih =>
    obtain ⟨k1, v1⟩ := p
    by_cases h : k1 = k
    · simp [assignKey, lookupKey, h]
    · simp only [assignKey, lookupKey, h, if_false, List.length_cons, ih]
      split <;> rfl

theorem lookupKey_eq_some_iff (k : String) (v : Event) (l : List (String × Event))
    (hnd : (l.map Prod.fst).Nodup) : lookupKey k l = some v ↔ (k, v) ∈ l := by
  induction l with
  | nil => simp [lookupKey]
  | cons p rest ih =>
    obtain ⟨k1, v1⟩ := p
    simp only [List.map_cons, List.nodup_cons] at hnd
    by_cases h : k1 = k
    · subst h
      have hno : ∀ w, (k1, w) ∉ rest := fun w hw => hnd.1 (List.mem_map_of_mem Prod.fst hw)
      simp only [lookupKey, if_true, Option.some.injEq, List.mem_cons, Prod.mk.injEq, true_and]
      constructor
      · intro e; exact Or.inl e.symm
      · rintro (e | e)
        · exact e.symm
        · exact absurd e (hno v)
    · have h2 : ¬ k = k1 := fun e => h e.symm
      simp [lookupKey, h, h2, ih hnd.2]

theorem foldl_append_singleton (l acc : List Event) :
    l.foldl (fun acc event => acc ++ [event]) acc = acc ++ l := by
  induction l generalizing acc with
  | nil => simp
  | cons a rest ih => simp [ih]

theorem get_empty (k : String) : EventMap.empty.get k = none := rfl

theorem get_set_self (m : EventMap) (k : String) (v : Event) :
    (m.set k v).get k = some v :=
  lookupKey_assignKey_self k v m.entries

theorem get_set_other (m : EventMap) (k k2 : String) (v : Event) (hne : k2 ≠ k) :
    (m.set k v).get k2 = m.get k2 :=
  lookupKey_assignKey_other k k2 v m.entries hne

theorem get_delete_self (m : EventMap) (k : String) : (m.delete k).get k = none :=
  lookupKey_removeKey_self k m.entries

theorem get_delete_other (m : EventMap) (k k2 : String) (hne : k2 ≠ k) :
    (m.delete k).get k2 = m.get k2 :=
  lookupKey_removeKey_other k k2 m.entries hne

theorem set_set (m : EventMap) (k : String) (v : Event) :
    (m.set k v).set k v = m.set k v := by
  cases m
  simp [EventMap.set, assignKey_assignKey]

theorem len_set (m : EventMap) (k : String) (v : Event) :
    (m.set k v).len = if m.get k = none then m.len + 1 else m.len :=
  length_assignKey k v m.entries

theorem mem_values_iff (m : EventMap) (v : Event) :
    v ∈ m.values ↔ ∃ k, m.get k = some v := by
  unfold EventMap.values EventMap.get
  constructor
  · intro h
    obtain ⟨p, hp, rfl⟩ := List.mem_map.1 h
    exact ⟨p.1, (lookupKey_eq_some_iff p.1 p.2 m.entries m.nodupKeys).2 hp⟩
  · rintro ⟨k, hk⟩
    exact List.mem_map.2 ⟨(k, v), (lookupKey_eq_some_iff k v m.entries m.nodupKeys).1 hk, rfl⟩

theorem removeKey_of_absent (k : String) (l : List (String × Event))
    (h : k ∉ l.map Prod.fst) : removeKey k l = l := by
  induction l with
  | nil => rfl
  | cons p rest ih =>
    obtain ⟨k1, v1⟩ := p
    simp only [List.map_cons, List.mem_cons, not_or] at h
    have h1 : ¬ k1 = k := fun e => h.1 e.symm
    simp [removeKey, h1, ih h.2]

theorem length_removeKey (k : String) (l : List (String × Event))
    (hnd : (l.map Prod.fst).Nodup) (hk : lookupKey k l ≠ none) :
    (removeKey k l).length + 1 = l.length := by
  induction l with
  | nil => simp [lookupKey] at hk
  | cons p rest ih =>
    obtain ⟨k1, v1⟩ := p
    simp only [List.map_cons, List.nodup_cons] at hnd
    by_cases h : k1 = k
    · subst h
      simp [removeKey, removeKey_of_absent k1 rest hnd.1]
    · have hk2 : lookupKey k rest ≠ none := by simpa [lookupKey, h] using hk
      simp [removeKey, h, ih hnd.2 hk2]

theorem len_delete (m : EventMap) (k : String) (hk : m.get k ≠ none) :
    (m.delete k).len + 1 = m.len :=
  length_removeKey k m.entries m.nodupKeys hk

theorem get_ne_none_iff_mem_keys (m : EventMap) (k : String) :
    m.get k ≠ none ↔ k ∈ m.entries.map Prod.fst := by
  unfold EventMap.get
  rw [Ne, lookupKey_eq_none_iff, not_not]

theorem map_get_keys (l : List (String × Event)) (hnd : (l.map Prod.fst).Nodup) :
    (l.map Prod.fst).map (fun k => lookupKey k l) = (l.map Prod.snd).map some := by
  rw [List.map_map, List.map_map]
  apply List.map_congr_left
  intro p hp
  exact (lookupKey_eq_some_iff p.1 p.2 l hnd).2 hp

theorem getAllEvents_eq (s : EventStore) :
    GetAllEvents s = (s, ⟨StatusOK, Body.events s.events.values⟩) := by
  simp [GetAllEvents, foldl_append_singleton]

/-! ## The formatted identifier is the base-10 rendering -/

theorem toDigitsCore_eq_digits (fuel n : Nat) (ds : List Char) (hn : 0 < n) (hf : n < fuel) :
    Nat.toDigitsCore 10 fuel n ds = ((Nat.digits 10 n).reverse.map Nat.digitChar) ++ ds := by
  induction fuel generalizing n ds with
  | zero => omega
  | succ f ih =>
    rw [Nat.digits_def' (by norm_num) hn]
    simp only [Nat.toDigitsCore]
    by_cases h0 : n / 10 = 0
    · simp [h0]
    · simp only [h0, if_false]
      rw [ih (n / 10) _ (Nat.pos_of_ne_zero h0) (by omega)]
      simp

theorem toDigits_eq_decimalDigits (n : Nat) : Nat.toDigits 10 n = decimalDigits n := by
  unfold decimalDigits Nat.toDigits
  by_cases h : n = 0
  · subst h
    rfl
  · rw [if_neg h, toDigitsCore_eq_digits (n + 1) n [] (Nat.pos_of_ne_zero h) (by omega)]
    simp

theorem sprintfD_eq_base10Rendering (t : Int) : sprintfD t = base10Rendering t := by
  cases t with
  | ofNat m =>
    have h : ¬ ((Int.ofNat m) < 0) := by simp
    simp only [sprintfD, base10Rendering, h, if_false, Nat.repr, toDigits_eq_decimalDigits]
    rfl
  | negSucc m =>
    have h : (Int.negSucc m) < 0 := Int.negSucc_lt_zero m
    simp only [sprintfD, base10Rendering, h, if_true, Nat.repr, toDigits_eq_decimalDigits]
    rfl

theorem digitValue_digitChar (d : Nat) (h : d < 10) : digitValue (Nat.digitChar d) = d := by
  interval_cases d <;> rfl

theorem isDigit_digitChar (d : Nat) (h : d < 10) : (Nat.digitChar d).isDigit = true := by
  interval_cases d <;> rfl

theorem decimalValue_map_digitChar (l : List Nat) (h : ∀ d ∈ l, d < 10) :
    decimalValue (l.reverse.map Nat.digitChar) = Nat.ofDigits 10 l := by
  induction l with
  | nil => simp [decimalValue]
  | cons d rest ih =>
    have hd : d < 10 := h d (List.mem_cons_self d rest)
    have hr : ∀ x ∈ rest, x < 10 := fun x hx => h x (List.mem_cons_of_mem d hx)
    have ih2 := ih hr
    unfold decimalValue at ih2 ⊢
    simp only [List.reverse_cons, List.map_append, List.map_cons, List.map_nil,
      List.foldl_append, List.foldl_cons, List.foldl_nil, ih2, digitValue_digitChar d hd,
      Nat.ofDigits_cons]
    omega

theorem decimalValue_decimalDigits (n : Nat) : decimalValue (decimalDigits n) = n := by
  unfold decimalDigits
  by_cases h : n = 0
  · subst h
    rfl
  · rw [if_neg h, decimalValue_map_digitChar _ (fun d hd => Nat.digits_lt_base (by norm_num) hd),
      Nat.ofDigits_digits]

theorem isDigit_decimalDigits (n : Nat) : ∀ c ∈ decimalDigits n, c.isDigit = true := by
  unfold decimalDigits
  by_cases h : n = 0
  · subst h
    intro c hc
    simp at hc
    subst hc
    rfl
  · rw [if_neg h]
    intro c hc
    obtain ⟨d, hd, rfl⟩ := List.mem_map.1 hc
    exact isDigit_digitChar d (Nat.digits_lt_base (by norm_num) (List.mem_reverse.1 hd))

/-! ## The key-integrity invariant -/

theorem keyIntegrity_store : KeyIntegrity store := by
  intro k v h
  simp [store, get_empty] at h

theorem keyIntegrity_handle (s : EventStore) (r : Request) (h : KeyIntegrity s) :
    KeyIntegrity (handle s r).1 := by
  cases r with
  | create now decoded =>
    cases decoded with
    | error err => exact h
    | ok e =>
      intro k v hk
      simp only [handle, CreateEvent] at hk
      by_cases hkk : k = sprintfD now
      · subst hkk
        rw [get_set_self] at hk
        cases hk
        rfl
      · rw [get_set_other _ _ _ _ hkk] at hk
        exact h k v hk
  | getAll => exact h
  | get id =>
    simp only [handle, GetEvent]
    split <;> exact h
  | update id decoded =>
    cases decoded with
    | error err => exact h
    | ok e =>
      simp only [handle, UpdateEvent]
      split
      · exact h
      · intro k v hk
        by_cases hkk : k = id
        · subst hkk
          simp only [get_set_self] at hk
          cases hk
          rfl
        · simp only [get_set_other _ _ _ _ hkk] at hk
          exact h k v hk
  | delete id =>
    simp only [handle, DeleteEvent]
    split
    · exact h
    · intro k v hk
      by_cases hkk : k = id
      · subst hkk
        simp only [get_delete_self] at hk
        cases hk
      · simp only [get_delete_other _ _ _ hkk] at hk
        exact h k v hk

theorem keyIntegrity_run (reqs : List Request) (s : EventStore) (h : KeyIntegrity s) :
    KeyIntegrity (run s reqs) := by
  induction reqs generalizing s with
  | nil => exact h
  | cons r rest ih => exact ih _ (keyIntegrity_handle s r h)

theorem keyIntegrity_of_reachable (s : EventStore) (h : Reachable s) : KeyIntegrity s := by
  obtain ⟨reqs, rfl⟩ := h
  exact keyIntegrity_run reqs store keyIntegrity_store

/-! ## Sample values used by the concrete checks -/

/-- Event of scenario S1: a lunch on 2025-01-01 from 12:00 to 13:00 UTC, sent
without an id. -/
def lunch : Event :=
  { ID := "", Title := "Lunch", Description := "",
    StartTime := ⟨1735732800, 0, 0⟩, EndTime := ⟨1735736400, 0, 0⟩, Location := "Cafe" }

/-- Replacement event of scenarios S3 and S4, carrying the foreign id `Y`. -/
def replacement : Event :=
  { ID := "Y", Title := "B", Description := "",
    StartTime := ⟨1735689600, 0, 0⟩, EndTime := ⟨1735693200, 0, 0⟩, Location := "" }

/-- Event stored by `PUT /api/events/1735732800` with body `replacement`. -/
def replaced : Event :=
  { ID := "1735732800", Title := "B", Description := "",
    StartTime := ⟨1735689600, 0, 0⟩, EndTime := ⟨1735693200, 0, 0⟩, Location := "" }

/-- Store after one `POST /api/events` of `lunch` at second 1735732800. -/
def storeWithLunch : EventStore := (CreateEvent store 1735732800 (Except.ok lunch)).1

/-- Requests of scenario S4: a creation, then an update whose body carries the
id `Y`. -/
def createThenUpdate : List Request :=
  [Request.create 1735732800 (Except.ok lunch),
   Request.update "1735732800" (Except.ok replacement)]

/-! ## Claims -/

/-- C1 (key integrity): in every state of the store reachable from the empty
store by a finite sequence of requests (creations, updates, deletions, and the
reads, with or without a decodable body), every entry stored under key `k` holds an event
whose `ID` is `k`. -/
theorem C1_key_integrity (s : EventStore) (h : Reachable s) (k : String) (v : Event)
    (hk : s.events.get k = some v) : v.ID = k :=
  keyIntegrity_of_reachable s h k v hk

/-- Concrete check of C1 after a creation followed by an update that carries a
foreign id. -/
theorem C1_key_integrity_witness :
    Reachable (run store createThenUpdate) ∧
      (run store createThenUpdate).events.get "1735732800"
        = some { replacement with ID := "1735732800" } ∧
      ({ replacement with ID := "1735732800" } : Event).ID = "1735732800" :=
  ⟨⟨createThenUpdate, rfl⟩, by decide,
    C1_key_integrity (run store createThenUpdate) ⟨createThenUpdate, rfl⟩ "1735732800"
      { replacement with ID := "1735732800" } (by decide)⟩

/-- C2 (insert then get): for every store, clock value and decoded event `e`,
`CreateEvent` answers 201 with an event `e1` that agrees with `e` on every field
other than `ID`, and `GetEvent` for `e1.ID` on the resulting store answers 200
with exactly `e1` (and leaves that store as it is). -/
theorem C2_insert_get_roundtrip (s : EventStore) (now : Int) (e : Event) :
    ∃ e1 : Event,
      (CreateEvent s now (Except.ok e)).2 = ⟨201, Body.event e1⟩ ∧
      e1.Title = e.Title ∧ e1.Description = e.Description ∧
      e1.StartTime = e.StartTime ∧ e1.EndTime = e.EndTime ∧ e1.Location = e.Location ∧
      GetEvent (CreateEvent s now (Except.ok e)).1 e1.ID
        = ((CreateEvent s now (Except.ok e)).1, ⟨200, Body.event e1⟩) := by
  refine ⟨{ e with ID := sprintfD now }, rfl, rfl, rfl, rfl, rfl, rfl, ?_⟩
  simp only [CreateEvent, GetEvent, get_set_self]
  rfl

/-- C3 (update replaces wholesale and forces the id): when `id` is a key of the
store, `UpdateEvent id e` answers 200 with `e` whose `ID` is set to `id`; in the
resulting store the key `id` holds exactly that value, every other key holds
what it held before, and the number of entries is unchanged. -/
theorem C3_update_replaces (s : EventStore) (id : String) (e : Event)
    (h : s.events.get id ≠ none) :
    (UpdateEvent s id (Except.ok e)).2 = ⟨200, Body.event { e with ID := id }⟩ ∧
    (∀ k, (UpdateEvent s id (Except.ok e)).1.events.get k
        = if k = id then some { e with ID := id } else s.events.get k) ∧
    (UpdateEvent s id (Except.ok e)).1.events.len = s.events.len := by
  have hu : UpdateEvent s id (Except.ok e)
      = (⟨s.events.set id { e with ID := id }⟩, ⟨200, Body.event { e with ID := id }⟩) := by
    simp only [UpdateEvent]
    split
    · rename_i hn
      exact absurd hn h
    · rfl
  rw [hu]
  refine ⟨rfl, ?_, ?_⟩
  · intro k
    by_cases hk : k = id
    · subst hk
      simp [get_set_self]
    · simp [hk, get_set_other _ _ _ _ hk]
  · simp [len_set, h]

/-- Scenario S4 as a concrete check of C3: the stored id stays `1735732800`
although the body carries `Y`, and title, description and location are those of
the body. -/
theorem C3_update_replaces_witness :
    storeWithLunch.events.get "1735732800" ≠ none ∧
    (UpdateEvent storeWithLunch "1735732800" (Except.ok replacement)).2
      = ⟨200, Body.event replaced⟩ :=
  ⟨by decide, (C3_update_replaces storeWithLunch "1735732800" replacement (by decide)).1⟩

/-- C4 (NotFound exactly when absent, with no change): for `GetEvent`,
`UpdateEvent` with a decoded body and `DeleteEvent`, the response is 404 with
the text `Event not found` if and only if `id` is not a key of the store, and in
that case the store after the call is the store before it. -/
theorem C4_not_found_iff_absent (s : EventStore) (id : String) (e : Event) :
    ((GetEvent s id).2 = ⟨404, Body.errorText "Event not found"⟩ ↔ s.events.get id = none) ∧
    ((UpdateEvent s id (Except.ok e)).2 = ⟨404, Body.errorText "Event not found"⟩
      ↔ s.events.get id = none) ∧
    ((DeleteEvent s id).2 = ⟨404, Body.errorText "Event not found"⟩ ↔ s.events.get id = none) ∧
    (s.events.get id = none →
      (GetEvent s id).1 = s ∧ (UpdateEvent s id (Except.ok e)).1 = s ∧
        (DeleteEvent s id).1 = s) := by
  cases hg : s.events.get id with
  | none => simp [GetEvent, UpdateEvent, DeleteEvent, hg, notFound, httpError, StatusNotFound]
  | some v =>
    simp [GetEvent, UpdateEvent, DeleteEvent, hg, StatusOK, StatusNoContent]

/-- Scenario S2 as a concrete check of C4: the three handlers answer 404 for
`does-not-exist` and leave the store alone. -/
theorem C4_not_found_iff_absent_witness :
    (GetEvent storeWithLunch "does-not-exist").2 = ⟨404, Body.errorText "Event not found"⟩ ∧
    (UpdateEvent storeWithLunch "does-not-exist" (Except.ok replacement)).1 = storeWithLunch :=
  ⟨(C4_not_found_iff_absent storeWithLunch "does-not-exist" replacement).1.2 (by decide),
    ((C4_not_found_iff_absent storeWithLunch "does-not-exist" replacement).2.2.2
      (by decide)).2.1⟩

/-- C5 (delete removes exactly one entry): in a reachable store that has the key
`id`, `DeleteEvent id` answers 204 with an empty body; afterwards `GetEvent id`
answers 404, no event listed by `GetAllEvents` has that `ID`, every other key
holds what it held before, and the store has exactly one entry fewer. -/
theorem C5_delete_removes (s : EventStore) (hs : Reachable s) (id : String)
    (h : s.events.get id ≠ none) :
    (DeleteEvent s id).2 = ⟨204, Body.empty⟩ ∧
    (GetEvent (DeleteEvent s id).1 id).2 = ⟨404, Body.errorText "Event not found"⟩ ∧
    (∃ es, (GetAllEvents (DeleteEvent s id).1).2 = ⟨200, Body.events es⟩ ∧
      ∀ ev ∈ es, ev.ID ≠ id) ∧
    (∀ k, k ≠ id → (DeleteEvent s id).1.events.get k = s.events.get k) ∧
    (DeleteEvent s id).1.events.len + 1 = s.events.len := by
  have hd : DeleteEvent s id = (⟨s.events.delete id⟩, ⟨204, Body.empty⟩) := by
    simp only [DeleteEvent]
    split
    · rename_i hn
      exact absurd hn h
    · rfl
  rw [hd]
  refine ⟨rfl, ?_, ⟨(s.events.delete id).values, ?_, ?_⟩, ?_, ?_⟩
  · simp [GetEvent, get_delete_self, notFound, httpError, StatusNotFound]
  · rw [getAllEvents_eq]
    rfl
  · intro ev hev hid
    obtain ⟨k, hk⟩ := (mem_values_iff _ ev).1 hev
    by_cases hkk : k = id
    · subst hkk
      rw [get_delete_self] at hk
      cases hk
    · rw [get_delete_other _ _ _ hkk] at hk
      exact hkk ((keyIntegrity_of_reachable s hs k ev hk).symm.trans hid)
  · intro k hk
    exact get_delete_other _ _ _ hk
  · exact len_delete _ _ h

/-- Scenario S5 as a concrete check of C5: after the one event is deleted the
listing is the empty array. -/
theorem C5_delete_removes_witness :
    Reachable storeWithLunch ∧ storeWithLunch.events.get "1735732800" ≠ none ∧
    (DeleteEvent storeWithLunch "1735732800").2 = ⟨204, Body.empty⟩ ∧
    (GetAllEvents (DeleteEvent storeWithLunch "1735732800").1).2 = ⟨200, Body.events []⟩ :=
  ⟨⟨[Request.create 1735732800 (Except.ok lunch)], rfl⟩, by decide,
    (C5_delete_removes storeWithLunch ⟨[Request.create 1735732800 (Except.ok lunch)], rfl⟩
      "1735732800" (by decide)).1, by decide⟩

/-- C6 as stated fails: the id assigned at second 1735732800 is already a key of
the reachable store `storeWithLunch`, the creation leaves the number of entries
at one instead of raising it to two, and the entry that was there changes. -/
theorem C6_fresh_id_counterexample :
    Reachable storeWithLunch ∧
    (CreateEvent storeWithLunch 1735732800 (Except.ok replacement)).2
      = ⟨201, Body.event replaced⟩ ∧
    storeWithLunch.events.get replaced.ID ≠ none ∧
    (CreateEvent storeWithLunch 1735732800 (Except.ok replacement)).1.events.len
      ≠ storeWithLunch.events.len + 1 ∧
    (CreateEvent storeWithLunch 1735732800 (Except.ok replacement)).1.events.get "1735732800"
      ≠ storeWithLunch.events.get "1735732800" :=
  ⟨⟨[Request.create 1735732800 (Except.ok lunch)], rfl⟩, by decide, by decide, by decide,
    by decide⟩

/-- C6 (amended): `CreateEvent` never touches an entry under a key other than
the id it assigns, and when that id is not yet a key of the store it leaves
every entry that was there unchanged and raises the number of entries by
exactly one. -/
theorem C6_insert_preserves_others (s : EventStore) (now : Int) (e : Event) :
    (∀ k, k ≠ sprintfD now →
      (CreateEvent s now (Except.ok e)).1.events.get k = s.events.get k) ∧
    (s.events.get (sprintfD now) = none →
      (∀ k v, s.events.get k = some v →
        (CreateEvent s now (Except.ok e)).1.events.get k = some v) ∧
      (CreateEvent s now (Except.ok e)).1.events.len = s.events.len + 1) := by
  refine ⟨fun k hk => get_set_other _ _ _ _ hk, fun h => ⟨?_, ?_⟩⟩
  · intro k v hkv
    have hk : k ≠ sprintfD now := by
      intro hEq
      rw [hEq, h] at hkv
      cases hkv
    simp only [CreateEvent]
    rw [get_set_other _ _ _ _ hk]
    exact hkv
  · simp [CreateEvent, len_set, h]

/-- Concrete check of the amended C6: a creation one second later keeps the
lunch entry and makes the store two entries long. -/
theorem C6_insert_preserves_others_witness :
    storeWithLunch.events.get (sprintfD 1735732801) = none ∧
    (CreateEvent storeWithLunch 1735732801 (Except.ok replacement)).1.events.get "1735732800"
      = storeWithLunch.events.get "1735732800" ∧
    (CreateEvent storeWithLunch 1735732801 (Except.ok replacement)).1.events.len
      = storeWithLunch.events.len + 1 :=
  ⟨by decide,
    (C6_insert_preserves_others storeWithLunch 1735732801 replacement).1 "1735732800"
      (by decide),
    ((C6_insert_preserves_others storeWithLunch 1735732801 replacement).2 (by decide)).2⟩

/-- C7 (identifier policy and same-second collision): `CreateEvent` at clock
value `t` answers 201 with the event whose `ID` is `fmt.Sprintf("%d", t)`,
whatever id the body carried, and that string is the base-10 rendering of `t`:
it equals `base10Rendering t`, i.e. it is a minus sign exactly when `t` is below
zero followed by decimal digits which, read in base 10, give the absolute value
of `t`.  Two creations of `e1` and `e2` at the same `t` therefore get the same
id, and after both the store has exactly one entry under that id, holding `e2`
with that id: the second creation added no entry and left every other key as it
was before the first. -/
theorem C7_id_policy_collision (s : EventStore) (t : Int) (e1 e2 : Event) :
    (CreateEvent s t (Except.ok e1)).2 = ⟨201, Body.event { e1 with ID := sprintfD t }⟩ ∧
    sprintfD t = base10Rendering t ∧
    (∃ ds : List Char, (sprintfD t).data = (if t < 0 then ['-'] else []) ++ ds ∧
      ds = decimalDigits t.natAbs ∧ (∀ c ∈ ds, c.isDigit = true) ∧
      decimalValue ds = t.natAbs) ∧
    (CreateEvent (CreateEvent s t (Except.ok e1)).1 t (Except.ok e2)).2
      = ⟨201, Body.event { e2 with ID := sprintfD t }⟩ ∧
    (CreateEvent (CreateEvent s t (Except.ok e1)).1 t (Except.ok e2)).1.events.get (sprintfD t)
      = some { e2 with ID := sprintfD t } ∧
    ((CreateEvent (CreateEvent s t (Except.ok e1)).1 t (Except.ok e2)).1.events.entries.map
      Prod.fst).count (sprintfD t) = 1 ∧
    (CreateEvent (CreateEvent s t (Except.ok e1)).1 t (Except.ok e2)).1.events.len
      = (CreateEvent s t (Except.ok e1)).1.events.len ∧
    (∀ k, k ≠ sprintfD t →
      (CreateEvent (CreateEvent s t (Except.ok e1)).1 t (Except.ok e2)).1.events.get k
        = s.events.get k) := by
  refine ⟨rfl, sprintfD_eq_base10Rendering t, ?_, rfl, ?_, ?_, ?_, ?_⟩
  · refine ⟨decimalDigits t.natAbs, ?_, rfl, isDigit_decimalDigits _,
      decimalValue_decimalDigits _⟩
    rw [sprintfD_eq_base10Rendering]
    rfl
  · simp only [CreateEvent, get_set_self]
  · apply List.count_eq_one_of_mem (EventMap.nodupKeys _)
    rw [← get_ne_none_iff_mem_keys]
    simp only [CreateEvent, get_set_self]
    simp
  · simp only [CreateEvent, len_set, get_set_self]
    simp
  · intro k hk
    simp only [CreateEvent]
    rw [get_set_other _ _ _ _ hk, get_set_other _ _ _ _ hk]

/-- Concrete check of C7: the id assigned at second 1735732800 is the text
`1735732800`, which is also the base-10 rendering of that number and reads back
as it; the rendering carries a minus sign below zero; and the later of two
same-second creations is the one stored. -/
theorem C7_id_policy_collision_witness :
    sprintfD 1735732800 = "1735732800" ∧ sprintfD (-5) = "-5" ∧ sprintfD 0 = "0" ∧
    base10Rendering 1735732800 = "1735732800" ∧
    base10Rendering (-5) = "-5" ∧
    decimalValue "1735732800".data = 1735732800 ∧
    (CreateEvent (CreateEvent store 1735732800 (Except.ok lunch)).1 1735732800
      (Except.ok replacement)).1.events.get "1735732800" = some replaced :=
  ⟨by decide, by decide, by decide,
    (C7_id_policy_collision store 1735732800 lunch replacement).2.1.symm.trans (by decide),
    (C7_id_policy_collision store (-5) lunch replacement).2.1.symm.trans (by decide),
    by decide,
    (C7_id_policy_collision store 1735732800 lunch replacement).2.2.2.2.1⟩

/-- C8 (listing returns exactly the stored events): `GetAllEvents` leaves the
store unchanged and answers 200 with a sequence that has one element per key
and lists, along a duplicate-free enumeration of all keys, exactly the event
stored under each key, so every stored event occurs in it and nothing else
does; on the empty store the sequence is the empty sequence, and after one
creation on the empty store it is the one-element sequence holding the event
that the creation returned. -/
theorem C8_get_all_exact :
    (∀ s : EventStore,
      (GetAllEvents s).1 = s ∧
      ∃ es : List Event, (GetAllEvents s).2 = ⟨200, Body.events es⟩ ∧
        es.length = s.events.len ∧
        (∀ k v, s.events.get k = some v → v ∈ es) ∧
        (∀ v, v ∈ es → ∃ k, s.events.get k = some v) ∧
        ∃ ks : List String, ks.Nodup ∧ (∀ k, k ∈ ks ↔ s.events.get k ≠ none) ∧
          ks.map (fun k => s.events.get k) = es.map some) ∧
    (GetAllEvents store).2 = ⟨200, Body.events []⟩ ∧
    (∀ (now : Int) (e : Event), ∃ e1 : Event,
      (CreateEvent store now (Except.ok e)).2 = ⟨201, Body.event e1⟩ ∧
      (GetAllEvents (CreateEvent store now (Except.ok e)).1).2 = ⟨200, Body.events [e1]⟩) := by
  refine ⟨fun s => ⟨rfl, s.events.values, ?_, ?_, ?_, ?_, ?_⟩, rfl, fun now e => ⟨_, rfl, rfl⟩⟩
  · rw [getAllEvents_eq]
    rfl
  · simp [EventMap.values, EventMap.len]
  · intro k v hkv
    exact (mem_values_iff _ v).2 ⟨k, hkv⟩
  · intro v hv
    exact (mem_values_iff _ v).1 hv
  · refine ⟨s.events.entries.map Prod.fst, s.events.nodupKeys, ?_, ?_⟩
    · intro k
      exact (get_ne_none_iff_mem_keys s.events k).symm
    · exact map_get_keys s.events.entries s.events.nodupKeys

/-- Scenario S1 as a concrete check of C8: the listing after the creation of
`lunch` is the one-element array holding `lunch` with its assigned id. -/
theorem C8_get_all_exact_witness :
    (GetAllEvents storeWithLunch).2
      = ⟨200, Body.events [{ lunch with ID := "1735732800" }]⟩ ∧
    ∃ es : List Event, (GetAllEvents storeWithLunch).2 = ⟨200, Body.events es⟩ ∧
      es.length = storeWithLunch.events.len :=
  ⟨by decide,
    (C8_get_all_exact.1 storeWithLunch).2.imp fun _ h => ⟨h.1, h.2.1⟩⟩

/-- C9 (update idempotence): for every store, id and decoded event, a second
`UpdateEvent` with the same id and event leaves the store produced by the first
one unchanged and answers what the first one answered, whether the id is a key
of the store or not. -/
theorem C9_update_idempotent (s : EventStore) (id : String) (e : Event) :
    (UpdateEvent (UpdateEvent s id (Except.ok e)).1 id (Except.ok e)).1
      = (UpdateEvent s id (Except.ok e)).1 ∧
    (UpdateEvent (UpdateEvent s id (Except.ok e)).1 id (Except.ok e)).2
      = (UpdateEvent s id (Except.ok e)).2 := by
  cases hg : s.events.get id with
  | none => simp [UpdateEvent, hg]
  | some v => simp [UpdateEvent, hg, get_set_self, set_set]

end CalendarEventManager
